import Mathlib

/-!
Shallow embedding of the fill/verify engine of `hddrand` (`src/main.rs`).

Bytes are modelled as `Nat` values, the device as a content function together
with a capacity, and the external ChaCha8 keystream (`rand_chacha`, a library
dependency, not code of this repository) as an abstract deterministic function
`ks` from a 32-byte seed to the byte at each stream position: `fill_bytes`
produces consecutive positions of that stream, which is exactly the property
the engine relies on.  Partial reads and writes are driven by a schedule
oracle `sched`: I/O call number `k` transfers at most `max 1 (sched k)` bytes
(the device transfers at least one byte whenever data/capacity remains, and
zero exactly at end of data/capacity, matching the code's reading of a
zero-byte transfer).  Durations (`Instant`/`Duration`) are dropped from the
model; the run result is the byte count that the Rust code returns next to the
elapsed time.  The shared atomics are modelled by explicit state: the transfer
counter is the `total` argument threaded through the loops, and the `Done`
flag is accounted for by the `doneStores` field, which counts how many times a
return path stores `true` into the flag (the `OnDrop` guard fires when the
guard value is dropped, including on panic unwind; the open-failure `?` return
at `main.rs:124`/`main.rs:204` happens before the guard exists and before the
progress thread is spawned, which the model records with `doneStores = 0` and
`reporterStarted = false`).
-/

namespace Hddrand

/-- Size of both 8 MiB transfer buffers (`main.rs:117,119,199`). -/
def CHUNK : Nat := 8388608

/-- Restriction of a seed function to its 32 meaningful bytes; the ChaCha8
generator is keyed by exactly the 32 seed bytes, so the abstract keystream is
always applied to the truncated seed. -/
def truncSeed (s : Nat → Nat) : Nat → Nat := fun i => if i < 32 then s i else 0

/-- Byte `j` of the generated buffer for outer-loop iteration (chunk) `c`:
`rng.fill_bytes` yields keystream positions `[c*CHUNK, (c+1)*CHUNK)`, and on
the very first chunk `write_all(&seed)` overwrites the leading 32 bytes with
the literal seed (`main.rs:147-151,210-214`). -/
def chunkBuf (ks : (Nat → Nat) → Nat → Nat) (s : Nat → Nat) (c j : Nat) : Nat :=
  if c = 0 ∧ j < 32 then s j else ks (truncSeed s) (c * CHUNK + j)

/-- The byte the stream layout puts at absolute device offset `i`: the raw
seed on `[0,32)` and the keystream continuation elsewhere. -/
def streamByte (ks : (Nat → Nat) → Nat → Nat) (s : Nat → Nat) (i : Nat) : Nat :=
  if i < 32 then s i else ks (truncSeed s) i

/-- A device: byte content, capacity in bytes, whether exhausting the capacity
surfaces as an `ENOSPC` error (versus a zero-byte write), and whether opening
the device fails. -/
structure Device where
  content : Nat → Nat
  size : Nat
  enospc : Bool
  openFails : Bool

/-- Bytes moved by one underlying I/O call: the request is capped by the data
or capacity still available and by the schedule oracle; at least one byte
moves whenever both the request and the availability are nonzero. -/
def xfer (req avail cap : Nat) : Nat := min req (min avail (max 1 cap))

/-- Overwrite `len` bytes of `f` starting at `pos` with `src 0, src 1, ...`. -/
def writeRange (f : Nat → Nat) (pos : Nat) (src : Nat → Nat) (len : Nat) : Nat → Nat :=
  fun i => if pos ≤ i ∧ i < pos + len then src (i - pos) else f i

/-- Transfer size of the chunk-loop I/O call at buffer offset `ro`, device
position `pos`, call number `k`. -/
def amt (sched : Nat → Nat) (dev : Device) (pos k ro : Nat) : Nat :=
  xfer (CHUNK - ro) (dev.size - pos) (sched k)

/-- What a run returns to `main`: `Ok(bytes)` (the `Duration` component is
dropped from the model), an open error propagated by `?`, or a panic. -/
inductive RunRet
  | ok (bytes : Nat)
  | openErr
  | panicked
deriving DecidableEq

/-- Which terminal condition ended a fill run.  `fuel` marks exhaustion of the
model's step budget and is proved unreachable for the budget `fill_drive`
supplies. -/
inductive FillCause
  | enospc
  | zeroWrite
  | openErr
  | fuel
deriving DecidableEq

/-- Result of a fill run: returned value, terminal condition, final device
(with the written content), final device write position, and the `Done`-flag
bookkeeping described in the file header. -/
structure FillOut where
  ret : RunRet
  cause : FillCause
  dev : Device
  pos : Nat
  doneStores : Nat
  reporterStarted : Bool

/-- The nested write loops of `fill_drive` (`main.rs:209-235`): the outer loop
generates chunk `c` and the inner loop writes `buffer[read_offset..]`,
breaking to the next chunk only when a single call writes the whole buffer
(`written == buffer.len()`), treating `ENOSPC` and zero-byte writes as the end
of the run.  One fuel unit is spent per write call. -/
def fillLoop (ks : (Nat → Nat) → Nat → Nat) (seed sched : Nat → Nat) :
    Nat → Device → Nat → Nat → Nat → Nat → Nat → FillOut
  | 0, dev, pos, _k, total, _c, _ro => ⟨.ok total, .fuel, dev, pos, 1, true⟩
  | fuel + 1, dev, pos, k, total, c, ro =>
    if CHUNK - ro = 0 then
      ⟨.ok total, .zeroWrite, dev, pos, 1, true⟩
    else if dev.size ≤ pos then
      if dev.enospc then ⟨.ok total, .enospc, dev, pos, 1, true⟩
      else ⟨.ok total, .zeroWrite, dev, pos, 1, true⟩
    else if amt sched dev pos k ro = CHUNK then
      fillLoop ks seed sched fuel
        ⟨writeRange dev.content pos (fun j => chunkBuf ks seed c (ro + j)) (amt sched dev pos k ro),
          dev.size, dev.enospc, dev.openFails⟩
        (pos + amt sched dev pos k ro) (k + 1) (total + amt sched dev pos k ro) (c + 1) 0
    else
      fillLoop ks seed sched fuel
        ⟨writeRange dev.content pos (fun j => chunkBuf ks seed c (ro + j)) (amt sched dev pos k ro),
          dev.size, dev.enospc, dev.openFails⟩
        (pos + amt sched dev pos k ro) (k + 1) (total + amt sched dev pos k ro) c
        (ro + amt sched dev pos k ro)

/-- `fill_drive` (`main.rs:193-236`): open the device (an open failure
propagates before the progress thread and the `OnDrop` guard exist), then run
the write loop from position 0.  Every write call moves at least one byte
while capacity remains, so `dev.size + 2` fuel units are never exhausted. -/
def fill_drive (ks : (Nat → Nat) → Nat → Nat) (seed sched : Nat → Nat) (dev : Device) :
    FillOut :=
  if dev.openFails then ⟨.openErr, .openErr, dev, 0, 0, false⟩
  else fillLoop ks seed sched (dev.size + 2) dev 0 0 0 0 0

/-- Index of the first position below `n` where `f` and `g` differ, scanning
upward from 0 — the `for i in write_offset..` search of `main.rs:163-168`
composed with the slice inequality test of `main.rs:157`. -/
def firstDiff (f g : Nat → Nat) : Nat → Option Nat
  | 0 => none
  | n + 1 =>
    match firstDiff f g n with
    | some i => some i
    | none => if f n = g n then none else some n

/-- Everything `verify_drive` reports about a detected mismatch
(`main.rs:157-177`), plus ghost bookkeeping used to state claims: `reported`
is the printed offset `write_offset + mismatch_start`, `expected` and `found`
are `rand_buffer[mismatch_start]` and `read_buffer[mismatch_start]`, `chunk`
is the outer-loop iteration, `idx` is `mismatch_start` (the in-buffer index of
the first differing byte), and `readStart` is the device position at which the
failing read began, i.e. the number of bytes read and counted before it. -/
structure MismatchInfo where
  reported : Nat
  expected : Nat
  found : Nat
  chunk : Nat
  idx : Nat
  readStart : Nat
deriving DecidableEq

/-- Result of a verify run: returned value, the mismatch report if one was
printed, and the `Done`-flag bookkeeping. -/
structure VerifyOut where
  ret : RunRet
  mismatch : Option MismatchInfo
  doneStores : Nat
  reporterStarted : Bool
deriving DecidableEq

/-- Outcome of the seed-extraction loop (`main.rs:130-141`): the final
`seed_buf` contents and next I/O call number, a panic (a zero-byte read before
32 bytes were accumulated), or fuel exhaustion (proved unreachable for the
budget `verify_drive` supplies). -/
inductive SeedRes
  | got (sbuf : Nat → Nat) (k : Nat)
  | panic
  | fuel

/-- The seed-extraction loop: while fewer than 32 bytes have been counted,
read into `seed_buf` — the code passes `&mut seed_buf`, so every retry writes
from index 0 of the 1024-byte buffer, it does not append at `bytes_read`. -/
def readSeedLoop (dev : Device) (sched : Nat → Nat) :
    Nat → Nat → Nat → Nat → (Nat → Nat) → SeedRes
  | 0, _, _, _, _ => .fuel
  | fuel + 1, pos, k, br, sbuf =>
    if 32 ≤ br then .got sbuf k
    else
      if xfer 1024 (dev.size - pos) (sched k) = 0 then .panic
      else
        readSeedLoop dev sched fuel (pos + xfer 1024 (dev.size - pos) (sched k)) (k + 1)
          (br + xfer 1024 (dev.size - pos) (sched k))
          (fun i => if i < xfer 1024 (dev.size - pos) (sched k) then dev.content (pos + i)
            else sbuf i)

/-- The nested read/compare loops of `verify_drive` (`main.rs:146-190`): read
into `read_buffer[write_offset..]`, compare exactly the freshly read range
against the generated buffer, and on inequality return the printed report —
the scan offset is `write_offset + mismatch_start` even though
`mismatch_start` already starts at `write_offset`, and no completed-chunk base
is added.  The mismatch return happens before `total_read.fetch_add(read)`,
so the returned count excludes the failing read.  As in `fillLoop`, the break
to the next chunk requires a single call to read the whole buffer. -/
def verifyLoop (ks : (Nat → Nat) → Nat → Nat) (sched : Nat → Nat) (dev : Device)
    (sbuf : Nat → Nat) : Nat → Nat → Nat → Nat → Nat → Nat → VerifyOut
  | 0, _pos, _k, total, _c, _ro => ⟨.ok total, none, 1, true⟩
  | fuel + 1, pos, k, total, c, ro =>
    match firstDiff (fun j => dev.content (pos + j)) (fun j => chunkBuf ks sbuf c (ro + j))
        (amt sched dev pos k ro) with
    | some j =>
      ⟨.ok total,
        some ⟨ro + (ro + j), chunkBuf ks sbuf c (ro + j), dev.content (pos + j), c, ro + j, pos⟩,
        1, true⟩
    | none =>
      if amt sched dev pos k ro = CHUNK then
        verifyLoop ks sched dev sbuf fuel (pos + amt sched dev pos k ro) (k + 1)
          (total + amt sched dev pos k ro) (c + 1) 0
      else if amt sched dev pos k ro = 0 then ⟨.ok total, none, 1, true⟩
      else
        verifyLoop ks sched dev sbuf fuel (pos + amt sched dev pos k ro) (k + 1)
          (total + amt sched dev pos k ro) c (ro + amt sched dev pos k ro)

/-- `verify_drive` (`main.rs:114-191`): open the device (an open failure
propagates before the progress thread and the `OnDrop` guard exist), run the
seed-extraction loop — a panic unwinds through the guard, so the `Done` flag
is still stored once — then `seek(SeekFrom::Start(0))` and run the main loop
from position 0 with the extracted `seed_buf`. -/
def verify_drive (ks : (Nat → Nat) → Nat → Nat) (sched : Nat → Nat) (dev : Device) :
    VerifyOut :=
  if dev.openFails then ⟨.openErr, none, 0, false⟩
  else
    match readSeedLoop dev sched 40 0 0 0 (fun _ => 0) with
    | .got sbuf k => verifyLoop ks sched dev sbuf (dev.size + 2) 0 k 0 0 0
    | _ => ⟨.panicked, none, 1, true⟩

/-- Schedule under which every I/O call transfers as much as is requested and
available — the whole-chunk device abstraction. -/
def wholeSched : Nat → Nat := fun _ => CHUNK

/-- Trivial concrete keystream used to instantiate witnesses. -/
def ks0 : (Nat → Nat) → Nat → Nat := fun _ _ => 0

/-- All-zero seed used to instantiate witnesses. -/
def seed0 : Nat → Nat := fun _ => 0

lemma CHUNK_eq : CHUNK = 8388608 := rfl

lemma xfer_le_req (req avail cap : Nat) : xfer req avail cap ≤ req :=
  Nat.min_le_left _ _

lemma xfer_le_avail (req avail cap : Nat) : xfer req avail cap ≤ avail :=
  le_trans (Nat.min_le_right _ _) (Nat.min_le_left _ _)

lemma xfer_pos {req avail : Nat} (cap : Nat) (h1 : 0 < req) (h2 : 0 < avail) :
    0 < xfer req avail cap := by
  have h3 : 0 < max 1 cap := lt_of_lt_of_le Nat.one_pos (le_max_left _ _)
  exact lt_min h1 (lt_min h2 h3)

lemma xfer_avail_zero (req cap : Nat) : xfer req 0 cap = 0 := by
  simp [xfer]

lemma xfer_big_cap {req cap : Nat} (avail : Nat) (h : req ≤ max 1 cap) :
    xfer req avail cap = min req avail := by
  unfold xfer
  rcases le_total avail (max 1 cap) with hle | hle
  · rw [min_eq_left hle]
  · rw [min_eq_right hle, min_eq_left h, min_eq_left (le_trans h hle)]

lemma amt_le_room (sched : Nat → Nat) (dev : Device) (pos k ro : Nat) :
    amt sched dev pos k ro ≤ CHUNK - ro :=
  xfer_le_req _ _ _

lemma amt_le_avail (sched : Nat → Nat) (dev : Device) (pos k ro : Nat) :
    amt sched dev pos k ro ≤ dev.size - pos :=
  xfer_le_avail _ _ _

lemma amt_pos (sched : Nat → Nat) (dev : Device) (pos k ro : Nat)
    (h1 : 0 < CHUNK - ro) (h2 : pos < dev.size) :
    0 < amt sched dev pos k ro :=
  xfer_pos _ h1 (by omega)

lemma writeRange_lt {f : Nat → Nat} {pos : Nat} {src : Nat → Nat} {len i : Nat}
    (h : i < pos) : writeRange f pos src len i = f i := by
  unfold writeRange
  rw [if_neg]
  omega

lemma writeRange_ge {f : Nat → Nat} {pos : Nat} {src : Nat → Nat} {len i : Nat}
    (h : pos + len ≤ i) : writeRange f pos src len i = f i := by
  unfold writeRange
  rw [if_neg]
  omega

lemma writeRange_mid {f : Nat → Nat} {pos : Nat} {src : Nat → Nat} {len i : Nat}
    (h1 : pos ≤ i) (h2 : i < pos + len) : writeRange f pos src len i = src (i - pos) := by
  unfold writeRange
  rw [if_pos ⟨h1, h2⟩]

lemma firstDiff_eq_none {f g : Nat → Nat} : ∀ {n : Nat}, (∀ j, j < n → f j = g j) →
    firstDiff f g n = none := by
  intro n
  induction n with
  | zero => intro _; rfl
  | succ n ih =>
    intro h
    unfold firstDiff
    rw [ih fun j hj => h j (by omega)]
    simp [h n (by omega)]

lemma firstDiff_none_imp {f g : Nat → Nat} : ∀ {n : Nat}, firstDiff f g n = none →
    ∀ j, j < n → f j = g j := by
  intro n
  induction n with
  | zero => intro _ j hj; omega
  | succ n ih =>
    intro h j hj
    unfold firstDiff at h
    cases hfd : firstDiff f g n with
    | some m => rw [hfd] at h; cases h
    | none =>
      rw [hfd] at h
      by_cases heq : f n = g n
      · rcases Nat.lt_succ_iff_lt_or_eq.mp hj with hj' | rfl
        · exact ih hfd j hj'
        · exact heq
      · rw [if_neg heq] at h; cases h

lemma firstDiff_spec {f g : Nat → Nat} : ∀ {n i : Nat}, firstDiff f g n = some i →
    i < n ∧ f i ≠ g i ∧ ∀ j, j < i → f j = g j := by
  intro n
  induction n with
  | zero => intro i h; exact absurd h (by simp [firstDiff])
  | succ n ih =>
    intro i h
    unfold firstDiff at h
    cases hfd : firstDiff f g n with
    | some m =>
      rw [hfd] at h
      obtain rfl : m = i := by simpa using h
      obtain ⟨h1, h2, h3⟩ := ih hfd
      exact ⟨by omega, h2, h3⟩
    | none =>
      rw [hfd] at h
      by_cases heq : f n = g n
      · rw [if_pos heq] at h; cases h
      · rw [if_neg heq] at h
        obtain rfl : n = i := by simpa using h
        exact ⟨by omega, heq, firstDiff_none_imp hfd⟩

lemma truncSeed_congr {s1 s2 : Nat → Nat} (h : ∀ j, j < 32 → s1 j = s2 j) :
    truncSeed s1 = truncSeed s2 := by
  funext j
  unfold truncSeed
  by_cases hj : j < 32
  · rw [if_pos hj, if_pos hj, h j hj]
  · rw [if_neg hj, if_neg hj]

lemma chunkBuf_congr {ks : (Nat → Nat) → Nat → Nat} {s1 s2 : Nat → Nat}
    (h : ∀ j, j < 32 → s1 j = s2 j) (c j : Nat) :
    chunkBuf ks s1 c j = chunkBuf ks s2 c j := by
  unfold chunkBuf
  rw [truncSeed_congr h]
  by_cases hc : c = 0 ∧ j < 32
  · rw [if_pos hc, if_pos hc, h j hc.2]
  · rw [if_neg hc, if_neg hc]

lemma streamByte_congr {ks : (Nat → Nat) → Nat → Nat} {s1 s2 : Nat → Nat}
    (h : ∀ j, j < 32 → s1 j = s2 j) (i : Nat) :
    streamByte ks s1 i = streamByte ks s2 i := by
  unfold streamByte
  rw [truncSeed_congr h]
  by_cases hi : i < 32
  · rw [if_pos hi, if_pos hi, h i hi]
  · rw [if_neg hi, if_neg hi]

lemma chunkBuf_eq_streamByte (ks : (Nat → Nat) → Nat → Nat) (s : Nat → Nat) {c j : Nat}
    (hj : j < CHUNK) : chunkBuf ks s c j = streamByte ks s (c * CHUNK + j) := by
  unfold chunkBuf streamByte
  rcases Nat.eq_zero_or_pos c with rfl | hc
  · simp only [Nat.zero_mul, Nat.zero_add, true_and]
  · have hge : CHUNK ≤ c * CHUNK := Nat.le_mul_of_pos_left CHUNK hc
    have h32 : ¬ c * CHUNK + j < 32 := by
      have := CHUNK_eq
      omega
    have hc0 : ¬ (c = 0 ∧ j < 32) := fun ⟨h0, _⟩ => by omega
    rw [if_neg hc0, if_neg h32]

/-- Everything a fill run started at device position `pos` guarantees: the
step budget was not exhausted, the returned count is the final device
position (every byte the device accepted was counted, and nothing else), the
final position stays within capacity, an `ENOSPC` ending means the device was
filled to capacity, and the content is the seed-prefixed keystream on the
newly written region `[pos, final)` while everything outside it is
untouched. -/
def FillSpec (ks : (Nat → Nat) → Nat → Nat) (seed : Nat → Nat) (dev : Device) (pos : Nat)
    (r : FillOut) : Prop :=
  r.cause ≠ .fuel ∧ r.ret = .ok r.pos ∧ pos ≤ r.pos ∧ r.pos ≤ dev.size ∧
  r.dev.size = dev.size ∧ r.dev.enospc = dev.enospc ∧ r.dev.openFails = dev.openFails ∧
  (r.cause = .enospc → r.pos = dev.size) ∧
  (∀ i, i < pos → r.dev.content i = dev.content i) ∧
  (∀ i, pos ≤ i → i < r.pos → r.dev.content i = streamByte ks seed i) ∧
  (∀ i, r.pos ≤ i → r.dev.content i = dev.content i)

lemma FillSpec.compose {ks : (Nat → Nat) → Nat → Nat} {seed : Nat → Nat} {dev dev2 : Device}
    {pos w : Nat} {r : FillOut}
    (SP : FillSpec ks seed dev2 (pos + w) r)
    (hsz : dev2.size = dev.size) (hen : dev2.enospc = dev.enospc)
    (hop : dev2.openFails = dev.openFails)
    (hlt : ∀ i, i < pos → dev2.content i = dev.content i)
    (hmid : ∀ i, pos ≤ i → i < pos + w → dev2.content i = streamByte ks seed i)
    (hge : ∀ i, pos + w ≤ i → dev2.content i = dev.content i) :
    FillSpec ks seed dev pos r := by
  obtain ⟨s1, s2, s3, s4, s5, s6, s7, s8, s9, s10, s11⟩ := SP
  refine ⟨s1, s2, by omega, by omega, by omega, by rw [s6, hen], by rw [s7, hop],
    fun h => by rw [s8 h, hsz], ?_, ?_, ?_⟩
  · intro i hi
    rw [s9 i (by omega), hlt i hi]
  · intro i hi1 hi2
    by_cases hmidc : i < pos + w
    · rw [s9 i hmidc, hmid i hi1 hmidc]
    · exact s10 i (by omega) hi2
  · intro i hi
    rw [s11 i hi, hge i (by omega)]

lemma FillSpec.terminal {ks : (Nat → Nat) → Nat → Nat} {seed : Nat → Nat} {dev : Device}
    {pos total : Nat} {cause : FillCause} {ds : Nat} {rs : Bool}
    (h3 : total = pos) (h4 : pos ≤ dev.size) (hcf : cause ≠ FillCause.fuel)
    (hce : cause = FillCause.enospc → pos = dev.size) :
    FillSpec ks seed dev pos ⟨.ok total, cause, dev, pos, ds, rs⟩ :=
  ⟨hcf, by rw [h3], le_refl _, h4, rfl, rfl, rfl, hce, fun i _ => rfl,
    fun i hi1 (hi2 : i < pos) => absurd hi2 (by omega), fun i _ => rfl⟩

/-- Invariant proof for `fillLoop`: started at a chunk-aligned state
(`pos = c * CHUNK + ro`, counter equal to position) with one fuel unit per
remaining capacity byte, the loop satisfies `FillSpec`. -/
theorem fillLoop_spec (ks : (Nat → Nat) → Nat → Nat) (seed sched : Nat → Nat) :
    ∀ fuel dev pos k total c ro,
      pos = c * CHUNK + ro → ro ≤ CHUNK → total = pos → pos ≤ dev.size →
      dev.size - pos < fuel →
      FillSpec ks seed dev pos (fillLoop ks seed sched fuel dev pos k total c ro) := by
  intro fuel
  induction fuel with
  | zero => intro dev pos k total c ro h1 h2 h3 h4 h5; omega
  | succ fuel ih =>
    intro dev pos k total c ro h1 h2 h3 h4 h5
    simp only [fillLoop]
    by_cases hro : CHUNK - ro = 0
    · rw [if_pos hro]
      exact FillSpec.terminal h3 h4 nofun nofun
    · rw [if_neg hro]
      by_cases hfull : dev.size ≤ pos
      · rw [if_pos hfull]
        have hpe : pos = dev.size := by omega
        cases hen : dev.enospc with
        | true =>
          rw [if_pos rfl]
          exact FillSpec.terminal h3 h4 nofun fun _ => hpe
        | false =>
          rw [if_neg Bool.false_ne_true]
          exact FillSpec.terminal h3 h4 nofun nofun
      · rw [if_neg hfull]
        have hw1 : 0 < amt sched dev pos k ro := amt_pos sched dev pos k ro (by omega) (by omega)
        have hw2 : amt sched dev pos k ro ≤ CHUNK - ro := amt_le_room sched dev pos k ro
        have hw3 : amt sched dev pos k ro ≤ dev.size - pos := amt_le_avail sched dev pos k ro
        have hmid : ∀ i, pos ≤ i → i < pos + amt sched dev pos k ro →
            writeRange dev.content pos (fun j => chunkBuf ks seed c (ro + j))
              (amt sched dev pos k ro) i = streamByte ks seed i := by
          intro i hi1 hi2
          rw [writeRange_mid hi1 hi2,
            chunkBuf_eq_streamByte ks seed (by rw [CHUNK_eq] at hw2 ⊢; omega)]
          have harg : c * CHUNK + (ro + (i - pos)) = i := by
            rw [CHUNK_eq] at h1 ⊢
            omega
          rw [harg]
        by_cases hbreak : amt sched dev pos k ro = CHUNK
        · rw [if_pos hbreak]
          have hro0 : ro = 0 := by rw [CHUNK_eq] at hbreak hw2; omega
          have SP := ih
            ⟨writeRange dev.content pos (fun j => chunkBuf ks seed c (ro + j))
              (amt sched dev pos k ro), dev.size, dev.enospc, dev.openFails⟩
            (pos + amt sched dev pos k ro) (k + 1) (total + amt sched dev pos k ro) (c + 1) 0
            (by rw [Nat.succ_mul]; rw [CHUNK_eq] at h1 hbreak ⊢; omega)
            (by omega) (by omega) (show pos + amt sched dev pos k ro ≤ dev.size by omega)
            (show dev.size - (pos + amt sched dev pos k ro) < fuel by omega)
          refine FillSpec.compose SP rfl rfl rfl ?_ ?_ ?_
          · intro i hi
            dsimp only
            exact writeRange_lt hi
          · intro i hi1 hi2
            dsimp only
            exact hmid i hi1 hi2
          · intro i hi
            dsimp only
            exact writeRange_ge hi
        · rw [if_neg hbreak]
          have SP := ih
            ⟨writeRange dev.content pos (fun j => chunkBuf ks seed c (ro + j))
              (amt sched dev pos k ro), dev.size, dev.enospc, dev.openFails⟩
            (pos + amt sched dev pos k ro) (k + 1) (total + amt sched dev pos k ro) c
            (ro + amt sched dev pos k ro)
            (by rw [CHUNK_eq] at h1 ⊢; omega)
            (by omega) (by omega) (show pos + amt sched dev pos k ro ≤ dev.size by omega)
            (show dev.size - (pos + amt sched dev pos k ro) < fuel by omega)
          refine FillSpec.compose SP rfl rfl rfl ?_ ?_ ?_
          · intro i hi
            dsimp only
            exact writeRange_lt hi
          · intro i hi1 hi2
            dsimp only
            exact hmid i hi1 hi2
          · intro i hi
            dsimp only
            exact writeRange_ge hi

theorem fill_drive_spec (ks : (Nat → Nat) → Nat → Nat) (seed sched : Nat → Nat) (dev : Device)
    (hof : dev.openFails = false) :
    FillSpec ks seed dev 0 (fill_drive ks seed sched dev) := by
  unfold fill_drive
  rw [if_neg (by rw [hof]; exact Bool.false_ne_true)]
  exact fillLoop_spec ks seed sched (dev.size + 2) dev 0 0 0 0 0 (by simp)
    (by rw [CHUNK_eq]; omega) rfl (Nat.zero_le _) (by omega)

lemma fillLoop_stop (ks : (Nat → Nat) → Nat → Nat) (seed sched : Nat → Nat)
    (fuel : Nat) (dev : Device) (pos k total c ro : Nat)
    (hro : ¬ CHUNK - ro = 0) (hfull : dev.size ≤ pos) :
    (fillLoop ks seed sched (fuel + 1) dev pos k total c ro).pos = pos ∧
    (fillLoop ks seed sched (fuel + 1) dev pos k total c ro).ret = .ok total := by
  simp only [fillLoop]
  rw [if_neg hro, if_pos hfull]
  cases dev.enospc with
  | true =>
    rw [if_pos rfl]
    exact ⟨rfl, rfl⟩
  | false =>
    rw [if_neg Bool.false_ne_true]
    exact ⟨rfl, rfl⟩

lemma fillLoop_break (ks : (Nat → Nat) → Nat → Nat) (seed sched : Nat → Nat)
    (fuel : Nat) (dev : Device) (pos k total c ro : Nat)
    (hro : ¬ CHUNK - ro = 0) (hfull : ¬ dev.size ≤ pos)
    (hbr : amt sched dev pos k ro = CHUNK) :
    fillLoop ks seed sched (fuel + 1) dev pos k total c ro =
      fillLoop ks seed sched fuel
        ⟨writeRange dev.content pos (fun j => chunkBuf ks seed c (ro + j))
          (amt sched dev pos k ro), dev.size, dev.enospc, dev.openFails⟩
        (pos + amt sched dev pos k ro) (k + 1) (total + amt sched dev pos k ro) (c + 1) 0 := by
  simp only [fillLoop]
  rw [if_neg hro, if_neg hfull, if_pos hbr]

lemma fillLoop_cont (ks : (Nat → Nat) → Nat → Nat) (seed sched : Nat → Nat)
    (fuel : Nat) (dev : Device) (pos k total c ro : Nat)
    (hro : ¬ CHUNK - ro = 0) (hfull : ¬ dev.size ≤ pos)
    (hbr : ¬ amt sched dev pos k ro = CHUNK) :
    fillLoop ks seed sched (fuel + 1) dev pos k total c ro =
      fillLoop ks seed sched fuel
        ⟨writeRange dev.content pos (fun j => chunkBuf ks seed c (ro + j))
          (amt sched dev pos k ro), dev.size, dev.enospc, dev.openFails⟩
        (pos + amt sched dev pos k ro) (k + 1) (total + amt sched dev pos k ro) c
        (ro + amt sched dev pos k ro) := by
  simp only [fillLoop]
  rw [if_neg hro, if_neg hfull, if_neg hbr]

/-- Under a schedule that never caps a request below the chunk size (the
whole-chunk device abstraction), a fill run started at a chunk boundary
always drives the device position to the full capacity. -/
theorem fillLoop_full (ks : (Nat → Nat) → Nat → Nat) (seed sched : Nat → Nat)
    (hs : ∀ k, CHUNK ≤ max 1 (sched k)) :
    ∀ fuel dev pos k total c,
      pos = c * CHUNK → pos ≤ dev.size → dev.size - pos + 1 < fuel →
      (fillLoop ks seed sched fuel dev pos k total c 0).pos = dev.size := by
  intro fuel
  induction fuel with
  | zero => intro dev pos k total c h1 h2 h3; omega
  | succ fuel ih =>
    intro dev pos k total c h1 h2 h3
    have hCC := CHUNK_eq
    by_cases hfull : dev.size ≤ pos
    · rw [(fillLoop_stop ks seed sched fuel dev pos k total c 0 (by omega) hfull).1]
      omega
    · have hamt : amt sched dev pos k 0 = min CHUNK (dev.size - pos) := by
        unfold amt
        rw [Nat.sub_zero]
        exact xfer_big_cap _ (hs k)
      rcases Nat.lt_or_ge (dev.size - pos) CHUNK with hsmall | hbig
      · have hrem : amt sched dev pos k 0 = dev.size - pos := by
          rw [hamt, min_eq_right (by omega)]
        rw [fillLoop_cont ks seed sched fuel dev pos k total c 0 (by omega) hfull (by omega)]
        cases fuel with
        | zero => omega
        | succ fuel2 =>
          rw [(fillLoop_stop ks seed sched fuel2
            ⟨writeRange dev.content pos (fun j => chunkBuf ks seed c (0 + j))
              (amt sched dev pos k 0), dev.size, dev.enospc, dev.openFails⟩
            (pos + amt sched dev pos k 0) (k + 1) (total + amt sched dev pos k 0) c
            (0 + amt sched dev pos k 0)
            (show ¬ CHUNK - (0 + amt sched dev pos k 0) = 0 by omega)
            (show dev.size ≤ pos + amt sched dev pos k 0 by omega)).1]
          omega
      · have hCH : amt sched dev pos k 0 = CHUNK := by
          rw [hamt, min_eq_left hbig]
        rw [fillLoop_break ks seed sched fuel dev pos k total c 0 (by omega) hfull hCH]
        have := ih
          ⟨writeRange dev.content pos (fun j => chunkBuf ks seed c (0 + j))
            (amt sched dev pos k 0), dev.size, dev.enospc, dev.openFails⟩
          (pos + amt sched dev pos k 0) (k + 1) (total + amt sched dev pos k 0) (c + 1)
          (by rw [Nat.succ_mul]; omega)
          (show pos + amt sched dev pos k 0 ≤ dev.size by omega)
          (show dev.size - (pos + amt sched dev pos k 0) + 1 < fuel by omega)
        exact this

theorem fill_drive_full (ks : (Nat → Nat) → Nat → Nat) (seed sched : Nat → Nat) (dev : Device)
    (hs : ∀ k, CHUNK ≤ max 1 (sched k)) (hof : dev.openFails = false) :
    (fill_drive ks seed sched dev).pos = dev.size := by
  unfold fill_drive
  rw [if_neg (by rw [hof]; exact Bool.false_ne_true)]
  exact fillLoop_full ks seed sched hs (dev.size + 2) dev 0 0 0 0 (by simp) (Nat.zero_le _)
    (by omega)

/-- Device of capacity 10 that reports `ENOSPC` when full; used for witnesses. -/
def devE : Device := ⟨fun _ => 3, 10, true, false⟩

/-- Device one hundred bytes larger than one chunk; used to exhibit the
chunk-boundary behaviour of the transfer loops. -/
def devBig : Device := ⟨fun _ => 0, 8388708, true, false⟩

/-- Schedule that serves every transfer in partial pieces of 4 MiB. -/
def halfSched : Nat → Nat := fun _ => 4194304

/-- C5: if a fill run ends because the device reported the out-of-space
condition, the run returns the plain success value carrying exactly the
number of bytes the device accepted — which at an `ENOSPC` ending is the full
capacity `dev.size` — and no error is surfaced. -/
theorem c5_enospc_returns_accepted (ks : (Nat → Nat) → Nat → Nat) (seed sched : Nat → Nat)
    (dev : Device) (h : (fill_drive ks seed sched dev).cause = FillCause.enospc) :
    (fill_drive ks seed sched dev).ret = RunRet.ok dev.size := by
  cases hof : dev.openFails with
  | true =>
    unfold fill_drive at h
    rw [if_pos hof] at h
    cases h
  | false =>
    obtain ⟨s1, s2, s3, s4, s5, s6, s7, s8, s9, s10, s11⟩ := fill_drive_spec ks seed sched dev hof
    rw [s2, s8 h]

/-- Witness for C5: a 10-byte `ENOSPC` device under full transfers ends by
`ENOSPC` and fill returns `Ok 10`. -/
theorem c5_enospc_returns_accepted_witness :
    (fill_drive ks0 seed0 wholeSched devE).cause = FillCause.enospc ∧
    (fill_drive ks0 seed0 wholeSched devE).ret = RunRet.ok 10 :=
  ⟨by decide, c5_enospc_returns_accepted ks0 seed0 wholeSched devE (by decide)⟩

/-- C6: every fill run returns the count of bytes it placed on the device,
the written extent `[0, pos)` holds exactly the seed on `[0,32)` followed by
the keystream continuation (`streamByte`), bytes beyond the written extent
are untouched (no headers, checksums or metadata), and under whole-chunk
transfers the written extent is the entire device. -/
theorem c6_fill_layout (ks : (Nat → Nat) → Nat → Nat) (seed sched : Nat → Nat) (dev : Device)
    (hof : dev.openFails = false) :
    (fill_drive ks seed sched dev).ret = RunRet.ok (fill_drive ks seed sched dev).pos ∧
    (∀ i, i < (fill_drive ks seed sched dev).pos →
      (fill_drive ks seed sched dev).dev.content i = streamByte ks seed i) ∧
    (∀ i, (fill_drive ks seed sched dev).pos ≤ i →
      (fill_drive ks seed sched dev).dev.content i = dev.content i) ∧
    ((∀ k, CHUNK ≤ max 1 (sched k)) → (fill_drive ks seed sched dev).pos = dev.size) := by
  obtain ⟨s1, s2, s3, s4, s5, s6, s7, s8, s9, s10, s11⟩ := fill_drive_spec ks seed sched dev hof
  exact ⟨s2, fun i hi => s10 i (Nat.zero_le _) hi, s11,
    fun hs => fill_drive_full ks seed sched dev hs hof⟩

/-- Witness for C6 at the concrete device `devE`. -/
theorem c6_fill_layout_witness :
    devE.openFails = false ∧
    (fill_drive ks0 seed0 wholeSched devE).ret =
      RunRet.ok (fill_drive ks0 seed0 wholeSched devE).pos ∧
    (fill_drive ks0 seed0 wholeSched devE).dev.content 5 = streamByte ks0 seed0 5 ∧
    (fill_drive ks0 seed0 wholeSched devE).pos = devE.size :=
  ⟨rfl, (c6_fill_layout ks0 seed0 wholeSched devE rfl).1,
    (c6_fill_layout ks0 seed0 wholeSched devE rfl).2.1 5 (by decide),
    (c6_fill_layout ks0 seed0 wholeSched devE rfl).2.2.2 (fun _ => le_max_right 1 CHUNK)⟩

/-- C2: evaluation showing the claim false on the code — on a device of
8 MiB + 100 bytes, fill under 4 MiB partial writes stops after the first
chunk with 8388608 bytes written (the loop breaks to the next chunk only when
a single call writes the whole buffer, so after two 4 MiB writes complete the
chunk it issues a zero-length write and misreads the 0 return as
end-of-capacity, cause `zeroWrite` even though the device reports `ENOSPC`
when actually full), while under whole-chunk transfers it writes all
8388708 bytes: the two abstractions do not yield identical results. -/
theorem c2_partial_transfer_divergence :
    (fill_drive ks0 seed0 halfSched devBig).ret = RunRet.ok 8388608 ∧
    (fill_drive ks0 seed0 halfSched devBig).cause = FillCause.zeroWrite ∧
    (fill_drive ks0 seed0 wholeSched devBig).ret = RunRet.ok 8388708 := by decide

lemma streamByte_lt32 {ks : (Nat → Nat) → Nat → Nat} {s : Nat → Nat} {i : Nat} (h : i < 32) :
    streamByte ks s i = s i := by
  unfold streamByte
  rw [if_pos h]

lemma chunkBuf_zero_lt32 {ks : (Nat → Nat) → Nat → Nat} {s : Nat → Nat} {j : Nat} (h : j < 32) :
    chunkBuf ks s 0 j = s j := by
  unfold chunkBuf
  rw [if_pos ⟨rfl, h⟩]

lemma verifyLoop_mis (ks : (Nat → Nat) → Nat → Nat) (sched : Nat → Nat) (dev : Device)
    (sbuf : Nat → Nat) (fuel pos k total c ro j : Nat)
    (hfd : firstDiff (fun j => dev.content (pos + j)) (fun j => chunkBuf ks sbuf c (ro + j))
      (amt sched dev pos k ro) = some j) :
    verifyLoop ks sched dev sbuf (fuel + 1) pos k total c ro =
      ⟨.ok total,
        some ⟨ro + (ro + j), chunkBuf ks sbuf c (ro + j), dev.content (pos + j), c, ro + j, pos⟩,
        1, true⟩ := by
  simp only [verifyLoop]
  rw [hfd]

lemma verifyLoop_none_break (ks : (Nat → Nat) → Nat → Nat) (sched : Nat → Nat) (dev : Device)
    (sbuf : Nat → Nat) (fuel pos k total c ro : Nat)
    (hfd : firstDiff (fun j => dev.content (pos + j)) (fun j => chunkBuf ks sbuf c (ro + j))
      (amt sched dev pos k ro) = none)
    (hbr : amt sched dev pos k ro = CHUNK) :
    verifyLoop ks sched dev sbuf (fuel + 1) pos k total c ro =
      verifyLoop ks sched dev sbuf fuel (pos + amt sched dev pos k ro) (k + 1)
        (total + amt sched dev pos k ro) (c + 1) 0 := by
  simp only [verifyLoop]
  rw [hfd, if_pos hbr]

lemma verifyLoop_none_zero (ks : (Nat → Nat) → Nat → Nat) (sched : Nat → Nat) (dev : Device)
    (sbuf : Nat → Nat) (fuel pos k total c ro : Nat)
    (hfd : firstDiff (fun j => dev.content (pos + j)) (fun j => chunkBuf ks sbuf c (ro + j))
      (amt sched dev pos k ro) = none)
    (hbr : ¬ amt sched dev pos k ro = CHUNK) (h0 : amt sched dev pos k ro = 0) :
    verifyLoop ks sched dev sbuf (fuel + 1) pos k total c ro = ⟨.ok total, none, 1, true⟩ := by
  simp only [verifyLoop]
  rw [hfd, if_neg hbr, if_pos h0]

lemma verifyLoop_none_cont (ks : (Nat → Nat) → Nat → Nat) (sched : Nat → Nat) (dev : Device)
    (sbuf : Nat → Nat) (fuel pos k total c ro : Nat)
    (hfd : firstDiff (fun j => dev.content (pos + j)) (fun j => chunkBuf ks sbuf c (ro + j))
      (amt sched dev pos k ro) = none)
    (hbr : ¬ amt sched dev pos k ro = CHUNK) (h0 : ¬ amt sched dev pos k ro = 0) :
    verifyLoop ks sched dev sbuf (fuel + 1) pos k total c ro =
      verifyLoop ks sched dev sbuf fuel (pos + amt sched dev pos k ro) (k + 1)
        (total + amt sched dev pos k ro) c (ro + amt sched dev pos k ro) := by
  simp only [verifyLoop]
  rw [hfd, if_neg hbr, if_neg h0]

lemma verifyLoop_done (ks : (Nat → Nat) → Nat → Nat) (sched : Nat → Nat) (dev : Device)
    (sbuf : Nat → Nat) : ∀ fuel pos k total c ro,
    (verifyLoop ks sched dev sbuf fuel pos k total c ro).doneStores = 1 ∧
    (verifyLoop ks sched dev sbuf fuel pos k total c ro).reporterStarted = true := by
  intro fuel
  induction fuel with
  | zero => intro pos k total c ro; exact ⟨rfl, rfl⟩
  | succ fuel ih =>
    intro pos k total c ro
    cases hfd : firstDiff (fun j => dev.content (pos + j)) (fun j => chunkBuf ks sbuf c (ro + j))
        (amt sched dev pos k ro) with
    | some j =>
      rw [verifyLoop_mis ks sched dev sbuf fuel pos k total c ro j hfd]
      exact ⟨rfl, rfl⟩
    | none =>
      by_cases hbr : amt sched dev pos k ro = CHUNK
      · rw [verifyLoop_none_break ks sched dev sbuf fuel pos k total c ro hfd hbr]
        exact ih _ _ _ _ _
      · by_cases h0 : amt sched dev pos k ro = 0
        · rw [verifyLoop_none_zero ks sched dev sbuf fuel pos k total c ro hfd hbr h0]
          exact ⟨rfl, rfl⟩
        · rw [verifyLoop_none_cont ks sched dev sbuf fuel pos k total c ro hfd hbr h0]
          exact ih _ _ _ _ _

lemma fillLoop_done (ks : (Nat → Nat) → Nat → Nat) (seed sched : Nat → Nat) :
    ∀ fuel dev pos k total c ro,
    (fillLoop ks seed sched fuel dev pos k total c ro).doneStores = 1 ∧
    (fillLoop ks seed sched fuel dev pos k total c ro).reporterStarted = true := by
  intro fuel
  induction fuel with
  | zero => intro dev pos k total c ro; exact ⟨rfl, rfl⟩
  | succ fuel ih =>
    intro dev pos k total c ro
    by_cases hro : CHUNK - ro = 0
    · simp only [fillLoop]
      rw [if_pos hro]
      exact ⟨rfl, rfl⟩
    · by_cases hfull : dev.size ≤ pos
      · cases hen : dev.enospc with
        | true =>
          simp only [fillLoop]
          rw [if_neg hro, if_pos hfull, hen, if_pos rfl]
          exact ⟨rfl, rfl⟩
        | false =>
          simp only [fillLoop]
          rw [if_neg hro, if_pos hfull, hen, if_neg Bool.false_ne_true]
          exact ⟨rfl, rfl⟩
      · by_cases hbr : amt sched dev pos k ro = CHUNK
        · rw [fillLoop_break ks seed sched fuel dev pos k total c ro hro hfull hbr]
          exact ih _ _ _ _ _ _
        · rw [fillLoop_cont ks seed sched fuel dev pos k total c ro hro hfull hbr]
          exact ih _ _ _ _ _ _

lemma readSeedLoop_done (dev : Device) (sched : Nat → Nat) (fuel pos k br : Nat)
    (sbuf : Nat → Nat) (h : 32 ≤ br) :
    readSeedLoop dev sched (fuel + 1) pos k br sbuf = .got sbuf k := by
  simp only [readSeedLoop]
  rw [if_pos h]

lemma readSeedLoop_panic (dev : Device) (sched : Nat → Nat) (fuel pos k br : Nat)
    (sbuf : Nat → Nat) (h1 : ¬ 32 ≤ br) (h2 : xfer 1024 (dev.size - pos) (sched k) = 0) :
    readSeedLoop dev sched (fuel + 1) pos k br sbuf = .panic := by
  simp only [readSeedLoop]
  rw [if_neg h1, if_pos h2]

lemma readSeedLoop_step (dev : Device) (sched : Nat → Nat) (fuel pos k br : Nat)
    (sbuf : Nat → Nat) (h1 : ¬ 32 ≤ br) (h2 : ¬ xfer 1024 (dev.size - pos) (sched k) = 0) :
    readSeedLoop dev sched (fuel + 1) pos k br sbuf =
      readSeedLoop dev sched fuel (pos + xfer 1024 (dev.size - pos) (sched k)) (k + 1)
        (br + xfer 1024 (dev.size - pos) (sched k))
        (fun i => if i < xfer 1024 (dev.size - pos) (sched k) then dev.content (pos + i)
          else sbuf i) := by
  simp only [readSeedLoop]
  rw [if_neg h1, if_neg h2]

/-- When the very first read of the seed-extraction phase returns at least 32
bytes, the loop ends after that single read with a `seed_buf` that does hold
the device's first 32 bytes. -/
lemma readSeed_first_big (dev : Device) (sched : Nat → Nat)
    (h32 : 32 ≤ xfer 1024 (dev.size - 0) (sched 0)) :
    ∃ sbuf, readSeedLoop dev sched 40 0 0 0 (fun _ => 0) = .got sbuf 1 ∧
      ∀ j, j < 32 → sbuf j = dev.content j := by
  have h1 : readSeedLoop dev sched 40 0 0 0 (fun _ => 0) =
      readSeedLoop dev sched 39 (0 + xfer 1024 (dev.size - 0) (sched 0)) (0 + 1)
        (0 + xfer 1024 (dev.size - 0) (sched 0))
        (fun i => if i < xfer 1024 (dev.size - 0) (sched 0) then dev.content (0 + i)
          else (fun _ => 0) i) := by
    rw [show (40 : Nat) = 39 + 1 by norm_num]
    exact readSeedLoop_step dev sched 39 0 0 0 (fun _ => 0) (by omega) (by omega)
  have h2 : readSeedLoop dev sched 39 (0 + xfer 1024 (dev.size - 0) (sched 0)) (0 + 1)
      (0 + xfer 1024 (dev.size - 0) (sched 0))
      (fun i => if i < xfer 1024 (dev.size - 0) (sched 0) then dev.content (0 + i)
        else (fun _ => 0) i) =
      .got (fun i => if i < xfer 1024 (dev.size - 0) (sched 0) then dev.content (0 + i)
        else (fun _ => 0) i) (0 + 1) := by
    rw [show (39 : Nat) = 38 + 1 by norm_num]
    exact readSeedLoop_done dev sched 38 _ _ _ _ (by omega)
  refine ⟨fun i => if i < xfer 1024 (dev.size - 0) (sched 0) then dev.content (0 + i)
    else (fun _ => 0) i, ?_, ?_⟩
  · rw [h1, h2]
  · intro j hj
    show (if j < xfer 1024 (dev.size - 0) (sched 0) then dev.content (0 + j) else (fun _ => 0) j)
      = dev.content j
    rw [if_pos (by omega), Nat.zero_add]

/-- On a device whose readable content is exactly the seed-prefixed keystream,
the main verify loop under whole-chunk transfers runs to the end of the device
and reports no mismatch, returning the full size. -/
theorem verifyLoop_pattern (ks : (Nat → Nat) → Nat → Nat) (seed sched : Nat → Nat)
    (dev : Device) (sbuf : Nat → Nat)
    (hs : ∀ k, CHUNK ≤ max 1 (sched k))
    (hsb : ∀ j, j < 32 → sbuf j = seed j)
    (hc : ∀ i, i < dev.size → dev.content i = streamByte ks seed i) :
    ∀ fuel pos k total c ro,
      pos = c * CHUNK + ro → total = pos → pos ≤ dev.size → ro < CHUNK →
      (ro = 0 ∨ pos = dev.size) →
      dev.size - pos + 1 < fuel →
      verifyLoop ks sched dev sbuf fuel pos k total c ro = ⟨.ok dev.size, none, 1, true⟩ := by
  intro fuel
  induction fuel with
  | zero => intro pos k total c ro _ _ _ _ _ h6; omega
  | succ fuel ih =>
    intro pos k total c ro h1 h2 h3 h4 h5 h6
    have hCC := CHUNK_eq
    by_cases hpos : pos = dev.size
    · have hz : dev.size - pos = 0 := by omega
      have hamt : amt sched dev pos k ro = 0 := by
        unfold amt
        rw [hz, xfer_avail_zero]
      have hfd : firstDiff (fun j => dev.content (pos + j)) (fun j => chunkBuf ks sbuf c (ro + j))
          (amt sched dev pos k ro) = none := by
        rw [hamt]
        rfl
      rw [verifyLoop_none_zero ks sched dev sbuf fuel pos k total c ro hfd (by omega) hamt, h2,
        hpos]
    · have hro0 : ro = 0 := by tauto
      subst hro0
      have hamt : amt sched dev pos k 0 = min CHUNK (dev.size - pos) := by
        unfold amt
        rw [Nat.sub_zero]
        exact xfer_big_cap _ (hs k)
      have hle : amt sched dev pos k 0 ≤ dev.size - pos := amt_le_avail sched dev pos k 0
      have hfd : firstDiff (fun j => dev.content (pos + j))
          (fun j => chunkBuf ks sbuf c (0 + j)) (amt sched dev pos k 0) = none := by
        apply firstDiff_eq_none
        intro j hj
        have hjC : 0 + j < CHUNK := by omega
        show dev.content (pos + j) = chunkBuf ks sbuf c (0 + j)
        rw [chunkBuf_congr hsb c (0 + j), chunkBuf_eq_streamByte ks seed hjC]
        have harg : c * CHUNK + (0 + j) = pos + j := by omega
        rw [harg]
        exact hc (pos + j) (by omega)
      rcases Nat.lt_or_ge (dev.size - pos) CHUNK with hsmall | hbig
      · have hrem : amt sched dev pos k 0 = dev.size - pos := by
          rw [hamt]
          omega
        rw [verifyLoop_none_cont ks sched dev sbuf fuel pos k total c 0 hfd (by omega) (by omega)]
        exact ih (pos + amt sched dev pos k 0) (k + 1) (total + amt sched dev pos k 0) c
          (0 + amt sched dev pos k 0) (by omega) (by omega) (by omega) (by omega)
          (Or.inr (by omega)) (by omega)
      · have hCH : amt sched dev pos k 0 = CHUNK := by
          rw [hamt]
          omega
        rw [verifyLoop_none_break ks sched dev sbuf fuel pos k total c 0 hfd hCH]
        exact ih (pos + amt sched dev pos k 0) (k + 1) (total + amt sched dev pos k 0) (c + 1) 0
          (by rw [Nat.succ_mul]; omega) (by omega) (by omega) (by omega) (Or.inl rfl)
          (by omega)

/-- Whenever the main verify loop reports a mismatch, the returned value is
the plain success variant carrying the device position at which the failing
read began — the count accumulated before that read, excluding the failing
read itself. -/
theorem verifyLoop_ret (ks : (Nat → Nat) → Nat → Nat) (sched : Nat → Nat) (dev : Device)
    (sbuf : Nat → Nat) : ∀ fuel pos k total c ro, total = pos →
    ∀ m, (verifyLoop ks sched dev sbuf fuel pos k total c ro).mismatch = some m →
      (verifyLoop ks sched dev sbuf fuel pos k total c ro).ret = RunRet.ok m.readStart := by
  intro fuel
  induction fuel with
  | zero => intro pos k total c ro h2 m hm; exact Option.noConfusion hm
  | succ fuel ih =>
    intro pos k total c ro h2 m hm
    cases hfd : firstDiff (fun j => dev.content (pos + j)) (fun j => chunkBuf ks sbuf c (ro + j))
        (amt sched dev pos k ro) with
    | some j =>
      rw [verifyLoop_mis ks sched dev sbuf fuel pos k total c ro j hfd] at hm ⊢
      obtain rfl : (⟨ro + (ro + j), chunkBuf ks sbuf c (ro + j), dev.content (pos + j), c,
          ro + j, pos⟩ : MismatchInfo) = m := Option.some.inj hm
      show RunRet.ok total = RunRet.ok pos
      rw [h2]
    | none =>
      by_cases hbr : amt sched dev pos k ro = CHUNK
      · rw [verifyLoop_none_break ks sched dev sbuf fuel pos k total c ro hfd hbr] at hm ⊢
        exact ih _ _ _ _ _ (by omega) m hm
      · by_cases h0 : amt sched dev pos k ro = 0
        · rw [verifyLoop_none_zero ks sched dev sbuf fuel pos k total c ro hfd hbr h0] at hm
          exact Option.noConfusion hm
        · rw [verifyLoop_none_cont ks sched dev sbuf fuel pos k total c ro hfd hbr h0] at hm ⊢
          exact ih _ _ _ _ _ (by omega) m hm

/-- When the extracted `seed_buf` agrees with the device's first 32 bytes,
every mismatch the main verify loop detects lies at an absolute device offset
(`chunk * CHUNK + idx`) of at least 32: in chunk 0 the expected buffer's
leading 32 bytes are the re-read device bytes themselves, and later chunks
start a whole chunk further in. -/
theorem verifyLoop_lower (ks : (Nat → Nat) → Nat → Nat) (sched : Nat → Nat) (dev : Device)
    (sbuf : Nat → Nat) (hsb : ∀ j, j < 32 → sbuf j = dev.content j) :
    ∀ fuel pos k total c ro, pos = c * CHUNK + ro →
    ∀ m, (verifyLoop ks sched dev sbuf fuel pos k total c ro).mismatch = some m →
      32 ≤ m.chunk * CHUNK + m.idx := by
  intro fuel
  induction fuel with
  | zero => intro pos k total c ro h1 m hm; exact Option.noConfusion hm
  | succ fuel ih =>
    intro pos k total c ro h1 m hm
    have hCC := CHUNK_eq
    cases hfd : firstDiff (fun j => dev.content (pos + j)) (fun j => chunkBuf ks sbuf c (ro + j))
        (amt sched dev pos k ro) with
    | some j =>
      rw [verifyLoop_mis ks sched dev sbuf fuel pos k total c ro j hfd] at hm
      obtain rfl : (⟨ro + (ro + j), chunkBuf ks sbuf c (ro + j), dev.content (pos + j), c,
          ro + j, pos⟩ : MismatchInfo) = m := Option.some.inj hm
      show 32 ≤ c * CHUNK + (ro + j)
      obtain ⟨hjlt, hne, hprev⟩ := firstDiff_spec hfd
      rcases Nat.eq_zero_or_pos c with rfl | hcpos
      · by_contra hlt
        push_neg at hlt
        apply hne
        show dev.content (pos + j) = chunkBuf ks sbuf 0 (ro + j)
        rw [chunkBuf_zero_lt32 (show ro + j < 32 by omega), hsb (ro + j) (by omega)]
        have harg : pos + j = ro + j := by omega
        rw [harg]
      · have hmul : CHUNK ≤ c * CHUNK := Nat.le_mul_of_pos_left CHUNK hcpos
        omega
    | none =>
      have hw2 : amt sched dev pos k ro ≤ CHUNK - ro := amt_le_room sched dev pos k ro
      by_cases hbr : amt sched dev pos k ro = CHUNK
      · rw [verifyLoop_none_break ks sched dev sbuf fuel pos k total c ro hfd hbr] at hm
        exact ih _ _ _ _ _ (by rw [Nat.succ_mul]; omega) m hm
      · by_cases h0 : amt sched dev pos k ro = 0
        · rw [verifyLoop_none_zero ks sched dev sbuf fuel pos k total c ro hfd hbr h0] at hm
          exact Option.noConfusion hm
        · rw [verifyLoop_none_cont ks sched dev sbuf fuel pos k total c ro hfd hbr h0] at hm
          exact ih _ _ _ _ _ (by omega) m hm

/-- On a device holding exactly the seed-prefixed keystream, verify under
whole-chunk transfers succeeds with the full size and no mismatch. -/
theorem verify_drive_pattern (ks : (Nat → Nat) → Nat → Nat) (seed sched : Nat → Nat)
    (dev : Device) (hs : ∀ k, CHUNK ≤ max 1 (sched k)) (hof : dev.openFails = false)
    (h32 : 32 ≤ dev.size) (hc : ∀ i, i < dev.size → dev.content i = streamByte ks seed i) :
    verify_drive ks sched dev = ⟨.ok dev.size, none, 1, true⟩ := by
  unfold verify_drive
  rw [if_neg (by rw [hof]; exact Bool.false_ne_true)]
  have hx : 32 ≤ xfer 1024 (dev.size - 0) (sched 0) := by
    have hs0 := hs 0
    rw [CHUNK_eq] at hs0
    unfold xfer
    omega
  obtain ⟨sbuf, hrs, hsb⟩ := readSeed_first_big dev sched hx
  rw [hrs]
  have hsb2 : ∀ j, j < 32 → sbuf j = seed j := by
    intro j hj
    rw [hsb j hj, hc j (by omega), streamByte_lt32 hj]
  exact verifyLoop_pattern ks seed sched dev sbuf hs hsb2 hc (dev.size + 2) 0 1 0 0 0
    (by simp) rfl (Nat.zero_le _) (by rw [CHUNK_eq]; omega) (Or.inl rfl) (by omega)

/-- Shared helper: a verify run that reports a mismatch returns the plain
success value carrying the byte count accumulated before the failing read. -/
lemma verify_mismatch_ret (ks : (Nat → Nat) → Nat → Nat) (sched : Nat → Nat) (dev : Device)
    (m : MismatchInfo) (h : (verify_drive ks sched dev).mismatch = some m) :
    (verify_drive ks sched dev).ret = RunRet.ok m.readStart := by
  unfold verify_drive at h ⊢
  cases hof : dev.openFails with
  | true =>
    rw [hof, if_pos rfl] at h
    exact Option.noConfusion h
  | false =>
    rw [hof, if_neg Bool.false_ne_true] at h
    rw [if_neg Bool.false_ne_true]
    cases hsr : readSeedLoop dev sched 40 0 0 0 (fun _ => 0) with
    | got sbuf k =>
      rw [hsr] at h
      exact verifyLoop_ret ks sched dev sbuf (dev.size + 2) 0 k 0 0 0 rfl m h
    | panic =>
      rw [hsr] at h
      exact Option.noConfusion h
    | fuel =>
      rw [hsr] at h
      exact Option.noConfusion h

/-- Empty device used as the round-trip counterexample. -/
def dev0 : Device := ⟨fun _ => 0, 0, false, false⟩

/-- 40-byte device used as the round-trip witness. -/
def devW : Device := ⟨fun _ => 5, 40, true, false⟩

/-- Device whose content is the seed-prefixed keystream for seed bytes 7
(under `ks0`) except at offset 40, where it holds 1 instead of 0. -/
def devC3 : Device := ⟨fun i => if i = 40 then 1 else if i < 32 then 7 else 0, 50, true, false⟩

/-- Constant-7 seed matching `devC3`. -/
def seed7 : Nat → Nat := fun _ => 7

/-- Schedule: the seed-phase read is served in full, the first main-loop read
transfers 35 bytes, later reads transfer up to 15 bytes. -/
def schedC3 : Nat → Nat := fun k => if k = 0 then 1024 else if k = 1 then 35 else 15

/-- 100-byte device matching the all-zero stream except at offset 40. -/
def devMis : Device := ⟨fun i => if i = 40 then 1 else 0, 100, true, false⟩

/-- 35-byte device holding exactly the all-zero stream. -/
def devClean : Device := ⟨fun _ => 0, 35, true, false⟩

/-- Device whose byte at offset `i` is `i`; its first 32 bytes differ from
what a short-read seed phase extracts. -/
def devRamp : Device := ⟨fun i => i, 50, true, false⟩

/-- Schedule whose first read returns only 10 bytes, forcing the
seed-extraction loop to retry. -/
def shortSeedSched : Nat → Nat := fun k => if k = 0 then 10 else 1024

/-- Device that fails to open. -/
def devNoOpen : Device := ⟨fun _ => 0, 10, true, true⟩

/-- Byte `j` of the `seed_buf` that verify's seed-extraction phase ends with
(`none` when the phase does not complete). -/
def seedByteAt (dev : Device) (sched : Nat → Nat) (j : Nat) : Option Nat :=
  match readSeedLoop dev sched 40 0 0 0 (fun _ => 0) with
  | .got sbuf _ => some (sbuf j)
  | _ => none

/-- C1 (amended): for every device of capacity at least 32 that opens
successfully, with transfers served in full (whole-chunk abstraction),
running fill to completion and then verify against the resulting device
reports success with `bytes_verified = bytes_written = dev.size` and no
mismatch. -/
theorem c1_round_trip (ks : (Nat → Nat) → Nat → Nat) (seed : Nat → Nat) (dev : Device)
    (hof : dev.openFails = false) (h32 : 32 ≤ dev.size) :
    (fill_drive ks seed wholeSched dev).ret = RunRet.ok dev.size ∧
    (verify_drive ks wholeSched (fill_drive ks seed wholeSched dev).dev).ret =
      RunRet.ok dev.size ∧
    (verify_drive ks wholeSched (fill_drive ks seed wholeSched dev).dev).mismatch = none := by
  have hws : ∀ k, CHUNK ≤ max 1 (wholeSched k) := fun _ => le_max_right 1 CHUNK
  obtain ⟨s1, s2, s3, s4, s5, s6, s7, s8, s9, s10, s11⟩ :=
    fill_drive_spec ks seed wholeSched dev hof
  have hfull := fill_drive_full ks seed wholeSched dev hws hof
  have hof2 : (fill_drive ks seed wholeSched dev).dev.openFails = false := by rw [s7, hof]
  have h32b : 32 ≤ (fill_drive ks seed wholeSched dev).dev.size := by omega
  have hcb : ∀ i, i < (fill_drive ks seed wholeSched dev).dev.size →
      (fill_drive ks seed wholeSched dev).dev.content i = streamByte ks seed i := by
    intro i hi
    exact s10 i (Nat.zero_le _) (by omega)
  have hv := verify_drive_pattern ks seed wholeSched _ hws hof2 h32b hcb
  rw [hv]
  refine ⟨by rw [s2, hfull], ?_, rfl⟩
  show RunRet.ok (fill_drive ks seed wholeSched dev).dev.size = RunRet.ok dev.size
  rw [s5]

/-- C1 counterexample: on a 0-byte device, fill runs to completion returning
`Ok 0`, but verify against the same unmodified device panics in the
seed-extraction phase instead of reporting success — the claim's universal
quantification over every device-backed byte sequence fails. -/
theorem c1_round_trip_counterexample :
    (fill_drive ks0 seed0 wholeSched dev0).ret = RunRet.ok 0 ∧
    (verify_drive ks0 wholeSched (fill_drive ks0 seed0 wholeSched dev0).dev).ret =
      RunRet.panicked := by decide

/-- Witness for C1 at the concrete 40-byte device `devW`. -/
theorem c1_round_trip_witness :
    devW.openFails = false ∧ 32 ≤ devW.size ∧
    (fill_drive ks0 seed0 wholeSched devW).ret = RunRet.ok 40 ∧
    (verify_drive ks0 wholeSched (fill_drive ks0 seed0 wholeSched devW).dev).ret =
      RunRet.ok 40 ∧
    (verify_drive ks0 wholeSched (fill_drive ks0 seed0 wholeSched devW).dev).mismatch = none :=
  ⟨rfl, by decide, (c1_round_trip ks0 seed0 devW rfl (by decide)).1,
    (c1_round_trip ks0 seed0 devW rfl (by decide)).2.1,
    (c1_round_trip ks0 seed0 devW rfl (by decide)).2.2⟩

/-- C3: evaluation showing the claim false on the code — `devC3` first
diverges from the expected stream (seed bytes 7, all-zero keystream `ks0`) at
absolute device offset 40, the code finds the correct expected byte 0 and
found byte 1 there, but the report it prints carries offset 75, not 40: the
scan index `mismatch_start` is already buffer-absolute (40), and the code
prints `write_offset + mismatch_start` with `write_offset = 35` (and never
adds the completed-chunk base for chunks after the first). -/
theorem c3_mismatch_offset_misreported :
    (∀ i, i < 40 → devC3.content i = streamByte ks0 seed7 i) ∧
    devC3.content 40 ≠ streamByte ks0 seed7 40 ∧
    (verify_drive ks0 schedC3 devC3).mismatch =
      some ⟨75, 0, 1, 0, 40, 35⟩ := by decide

/-- C4 counterexample: verify on `devMis` (which mismatches the expected
stream at offset 40) detects a mismatch, verify on `devClean` completes
cleanly to end of device, and the two runs return exactly the same value
(`Ok 35`): the result does not let the caller tell a detected mismatch apart
from a clean completion. -/
theorem c4_outcomes_confused :
    (verify_drive ks0 schedC3 devMis).mismatch = some ⟨75, 0, 1, 0, 40, 35⟩ ∧
    (verify_drive ks0 wholeSched devClean).mismatch = none ∧
    (verify_drive ks0 schedC3 devMis).ret = (verify_drive ks0 wholeSched devClean).ret := by
  decide

/-- C4 (amended): a detected mismatch is not a distinguished outcome of the
returned value: verify prints the report to stderr and returns the ordinary
success variant `Ok(bytes, elapsed)`, exactly as a clean completion does
(callers can distinguish only I/O failure and the seed panic). -/
theorem c4_mismatch_returns_ok (ks : (Nat → Nat) → Nat → Nat) (sched : Nat → Nat)
    (dev : Device) (m : MismatchInfo)
    (h : (verify_drive ks sched dev).mismatch = some m) :
    ∃ b, (verify_drive ks sched dev).ret = RunRet.ok b :=
  ⟨m.readStart, verify_mismatch_ret ks sched dev m h⟩

/-- Witness for C4 at the concrete device `devMis`. -/
theorem c4_mismatch_returns_ok_witness :
    (verify_drive ks0 schedC3 devMis).mismatch = some ⟨75, 0, 1, 0, 40, 35⟩ ∧
    ∃ b, (verify_drive ks0 schedC3 devMis).ret = RunRet.ok b :=
  ⟨by decide, c4_mismatch_returns_ok ks0 schedC3 devMis ⟨75, 0, 1, 0, 40, 35⟩ (by decide)⟩

/-- C7: evaluation showing the claim false on the code — with a first seed
read of 10 bytes, the retry reads into `&mut seed_buf` again (from index 0,
not at `bytes_read`), so the extracted seed byte 0 is the device's byte 10,
not its byte 0: the loop does not accumulate the 32 bytes at device offsets
`[0, 32)`. -/
theorem c7_seed_not_from_offset_zero :
    seedByteAt devRamp shortSeedSched 0 = some 10 ∧ devRamp.content 0 = 0 := by decide

/-- C8: when verify stops on a detected mismatch, the returned
`bytes_verified` is exactly the total read and counted before the failing
read (`readStart`, the device position at which that read began): partial
reads of the same chunk made before the mismatch are already included, and
the failing read's own bytes are excluded, matching the spec's stated
convention. -/
theorem c8_bytes_on_mismatch (ks : (Nat → Nat) → Nat → Nat) (sched : Nat → Nat) (dev : Device)
    (m : MismatchInfo) (h : (verify_drive ks sched dev).mismatch = some m) :
    (verify_drive ks sched dev).ret = RunRet.ok m.readStart :=
  verify_mismatch_ret ks sched dev m h

/-- Witness for C8: on `devC3` the mismatch is detected during the second
partial read of chunk 0, after a 35-byte partial read was counted, and verify
returns `Ok 35`. -/
theorem c8_bytes_on_mismatch_witness :
    (verify_drive ks0 schedC3 devC3).mismatch = some ⟨75, 0, 1, 0, 40, 35⟩ ∧
    (verify_drive ks0 schedC3 devC3).ret = RunRet.ok 35 :=
  ⟨by decide, c8_bytes_on_mismatch ks0 schedC3 devC3 ⟨75, 0, 1, 0, 40, 35⟩ (by decide)⟩

/-- C9 counterexample: when opening the device fails, both fill and verify
return through the `?` at `main.rs:124`/`main.rs:204` before the `OnDrop`
guard is created, so the `Done` flag is never stored on that error exit path
(no reporter thread has been started either). -/
theorem c9_done_flag_counterexample :
    (fill_drive ks0 seed0 wholeSched devNoOpen).doneStores = 0 ∧
    (fill_drive ks0 seed0 wholeSched devNoOpen).reporterStarted = false ∧
    (verify_drive ks0 wholeSched devNoOpen).doneStores = 0 ∧
    (verify_drive ks0 wholeSched devNoOpen).reporterStarted = false := by decide

/-- C9 (amended): on every exit path reached once the device is open — and
hence once the progress reporter has been started and the scope guard
installed — fill and verify store the `Done` flag exactly once before
returning: normal completion, exhaustion, detected mismatch (explicit
`drop(on_drop)`), and the seed panic (unwind runs the guard). -/
theorem c9_done_flag_set_once (ks : (Nat → Nat) → Nat → Nat) (seed sched : Nat → Nat)
    (dev : Device) (hof : dev.openFails = false) :
    (fill_drive ks seed sched dev).doneStores = 1 ∧
    (fill_drive ks seed sched dev).reporterStarted = true ∧
    (verify_drive ks sched dev).doneStores = 1 ∧
    (verify_drive ks sched dev).reporterStarted = true := by
  unfold fill_drive verify_drive
  rw [if_neg (by rw [hof]; exact Bool.false_ne_true),
    if_neg (by rw [hof]; exact Bool.false_ne_true)]
  refine ⟨(fillLoop_done ks seed sched (dev.size + 2) dev 0 0 0 0 0).1,
    (fillLoop_done ks seed sched (dev.size + 2) dev 0 0 0 0 0).2, ?_, ?_⟩
  · cases hsr : readSeedLoop dev sched 40 0 0 0 (fun _ => 0) with
    | got sbuf k => exact (verifyLoop_done ks sched dev sbuf (dev.size + 2) 0 k 0 0 0).1
    | panic => rfl
    | fuel => rfl
  · cases hsr : readSeedLoop dev sched 40 0 0 0 (fun _ => 0) with
    | got sbuf k => exact (verifyLoop_done ks sched dev sbuf (dev.size + 2) 0 k 0 0 0).2
    | panic => rfl
    | fuel => rfl

/-- Witness for C9 at the concrete device `devE`. -/
theorem c9_done_flag_set_once_witness :
    devE.openFails = false ∧
    (fill_drive ks0 seed0 wholeSched devE).doneStores = 1 ∧
    (verify_drive ks0 wholeSched devE).doneStores = 1 :=
  ⟨rfl, (c9_done_flag_set_once ks0 seed0 wholeSched devE rfl).1,
    (c9_done_flag_set_once ks0 seed0 wholeSched devE rfl).2.2.1⟩

/-- C10 counterexample: on `devRamp` under `shortSeedSched`, the
seed-extraction retry overwrites `seed_buf` from index 0, so the expected
buffer's leading bytes are device bytes 10.. rather than the re-read device
bytes 0..; verify then detects and reports a mismatch with printed offset 0 —
below 32 — contradicting the claim that any reported mismatch offset is at
least 32. -/
theorem c10_reported_offset_below_32 :
    (verify_drive ks0 shortSeedSched devRamp).mismatch =
      some ⟨0, 10, 0, 0, 0, 0⟩ := by decide

/-- C10 (amended): provided the first read of the seed phase returns at
least 32 bytes (so the extracted seed really is the device's first 32
bytes), any mismatch verify detects lies at an absolute device offset
`chunk * CHUNK + idx` of at least 32 — the first chunk's leading 32 bytes
always compare equal.  (The printed offset can still be below 32 for chunks
after the first, by the C3 reporting defect.) -/
theorem c10_detected_offset_ge_32 (ks : (Nat → Nat) → Nat → Nat) (sched : Nat → Nat)
    (dev : Device) (m : MismatchInfo)
    (hfirst : 32 ≤ xfer 1024 (dev.size - 0) (sched 0))
    (h : (verify_drive ks sched dev).mismatch = some m) :
    32 ≤ m.chunk * CHUNK + m.idx := by
  unfold verify_drive at h
  cases hof : dev.openFails with
  | true =>
    rw [hof, if_pos rfl] at h
    exact Option.noConfusion h
  | false =>
    rw [hof, if_neg Bool.false_ne_true] at h
    obtain ⟨sbuf, hrs, hsb⟩ := readSeed_first_big dev sched hfirst
    rw [hrs] at h
    exact verifyLoop_lower ks sched dev sbuf hsb (dev.size + 2) 0 1 0 0 0 (by simp) m h

/-- Witness for C10 at the concrete device `devC3`, whose mismatch at device
offset 40 satisfies the bound. -/
theorem c10_detected_offset_ge_32_witness :
    32 ≤ xfer 1024 (devC3.size - 0) (schedC3 0) ∧
    (verify_drive ks0 schedC3 devC3).mismatch = some ⟨75, 0, 1, 0, 40, 35⟩ ∧
    32 ≤ 0 * CHUNK + 40 :=
  ⟨by decide, by decide,
    c10_detected_offset_ge_32 ks0 schedC3 devC3 ⟨75, 0, 1, 0, 40, 35⟩ (by decide) (by decide)⟩

end Hddrand
